import Mathlib

/-!
Verification development for the niri-taskbar core: a shallow embedding of
the window/workspace state machine (`src/niri/state.rs`), the notification
correlator (`src/lib.rs`), the connection→pid cache (`src/notify/cache.rs`),
and the process-ancestry parser (`src/process.rs`), together with theorems
checking the natural-language specification against that embedding.
-/

namespace NiriTaskbar

/-! ## Association maps

`BTreeMap<u64, _>` (and `HashMap<String, _>`) are embedded as association
lists.  Insertion overwrites any existing binding for the key; building a map
from a vector lets later duplicates win, as `collect` does in the source.
The claims under verification are order-insensitive, so list order is not
required to match the B-tree's key order.
-/

def amGet {α : Type} : List (Nat × α) → Nat → Option α
  | [], _ => none
  | (k, v) :: rest, k' => if k = k' then some v else amGet rest k'

def amErase {α : Type} (m : List (Nat × α)) (k : Nat) : List (Nat × α) :=
  m.filter (fun p => p.1 ≠ k)

def amInsert {α : Type} (m : List (Nat × α)) (k : Nat) (v : α) : List (Nat × α) :=
  (k, v) :: amErase m k

def amOfList {α : Type} (l : List (Nat × α)) : List (Nat × α) :=
  l.foldl (fun m p => amInsert m p.1 p.2) []

def amModify {α : Type} (m : List (Nat × α)) (k : Nat) (f : α → α) : List (Nat × α) :=
  m.map (fun p => if p.1 = k then (p.1, f p.2) else p)

def amMapVals {α : Type} (m : List (Nat × α)) (f : α → α) : List (Nat × α) :=
  m.map (fun p => (p.1, f p.2))

def amValues {α : Type} (m : List (Nat × α)) : List α := m.map Prod.snd

/-! ## Data model (`niri_ipc` types, restricted to the fields the core reads) -/

/-- `niri_ipc::WindowLayout`; only `pos_in_scrolling_layout` is read by the
taskbar (for button ordering). -/
structure WindowLayout where
  pos_in_scrolling_layout : Option (Nat × Nat)
deriving Repr, DecidableEq

/-- `niri_ipc::Window`, restricted to the fields the core reads.  `pid` is
stored as a mathematical integer (the source converts the wire `i32` to `i64`
before use). -/
structure NiriWindow where
  id : Nat
  title : Option String
  app_id : Option String
  pid : Option Int
  workspace_id : Option Nat
  is_focused : Bool
  layout : WindowLayout
deriving Repr, DecidableEq

/-- `niri_ipc::Workspace`, restricted to the fields the core reads. -/
structure Workspace where
  id : Nat
  idx : Nat
  output : Option String
  is_focused : Bool
deriving Repr, DecidableEq

/-- The subset of `niri_ipc::Event` handled by `WindowSet::with_event`;
`other` stands for every event kind the `_ => {}` arm ignores. -/
inductive Event where
  | WindowsChanged (windows : List NiriWindow)
  | WorkspacesChanged (workspaces : List Workspace)
  | WindowClosed (id : Nat)
  | WindowOpenedOrChanged (window : NiriWindow)
  | WindowFocusChanged (id : Option Nat)
  | WindowLayoutsChanged (changes : List (Nat × WindowLayout))
  | WorkspaceActivated (id : Nat) (focused : Bool)
  | other
deriving Repr, DecidableEq

def Event.isWindowsChanged : Event → Bool
  | .WindowsChanged _ => true
  | _ => false

def Event.isWorkspacesChanged : Event → Bool
  | .WorkspacesChanged _ => true
  | _ => false

/-! ## The Niri state (`struct Niri` in `src/niri/state.rs`) -/

structure Niri where
  windows : List (Nat × NiriWindow)
  workspaces : List (Nat × Workspace)
deriving Repr, DecidableEq

def Niri.remove_window (n : Niri) (id : Nat) : Niri :=
  { n with windows := amErase n.windows id }

def Niri.replace_windows (n : Niri) (windows : List NiriWindow) : Niri :=
  { n with windows := amOfList (windows.map (fun w => (w.id, w))) }

def Niri.replace_workspaces (n : Niri) (workspaces : List Workspace) : Niri :=
  { n with workspaces := amOfList (workspaces.map (fun ws => (ws.id, ws))) }

def Niri.set_focus (n : Niri) (id : Option Nat) : Niri :=
  { n with
    windows := amMapVals n.windows
      (fun w => { w with is_focused := some w.id == id }) }

def Niri.update_window_layout (n : Niri) (window_id : Nat) (layout : WindowLayout) : Niri :=
  { n with windows := amModify n.windows window_id (fun w => { w with layout := layout }) }

def Niri.upsert_window (n : Niri) (window : NiriWindow) : Niri :=
  let cleared :=
    if window.is_focused then
      amMapVals n.windows (fun w => { w with is_focused := false })
    else
      n.windows
  { n with windows := amInsert cleared window.id window }

def Niri.new (windows : List NiriWindow) (workspaces : List Workspace) : Niri :=
  (Niri.mk [] [] |>.replace_workspaces workspaces).replace_windows windows

/-- `struct Window` in `src/niri/state.rs`: a snapshot window, pairing the
raw window with its workspace's output name. -/
structure SnapshotWindow where
  window : NiriWindow
  output : Option String
deriving Repr, DecidableEq

/-- `struct Snapshot` in `src/niri/state.rs`. -/
structure Snapshot where
  windows : List SnapshotWindow
  workspaces : List Workspace
deriving Repr, DecidableEq

/-- `Niri::snapshot`: windows whose workspace id is set and known are paired
with that workspace's output; the rest are dropped; workspaces are copied. -/
def Niri.snapshot (n : Niri) : Snapshot :=
  { windows :=
      (amValues n.windows).filterMap (fun w =>
        w.workspace_id.bind (fun wsId =>
          (amGet n.workspaces wsId).map
            (fun ws => { window := w, output := ws.output })))
    workspaces := amValues n.workspaces }

/-! ## The window-set state machine (`WindowSet` in `src/niri/state.rs`) -/

/-- `enum Inner` in `src/niri/state.rs`. -/
inductive Inner where
  | WindowsOnly (windows : List NiriWindow)
  | WorkspacesOnly (workspaces : List Workspace)
  | Ready (state : Niri)
deriving Repr, DecidableEq

/-- `WindowSet` wraps `Option<Inner>`. -/
def WindowSet : Type := Option Inner

def WindowSet.new : WindowSet := none

def WindowSet.isReady : WindowSet → Bool
  | some (.Ready _) => true
  | _ => false

/-- `WindowSet::with_event`: one step of the state machine, returning the new
state and the value returned to the caller (`Some(snapshot)` exactly when the
post-state is `Ready`). -/
def WindowSet.with_event (s : WindowSet) (e : Event) : WindowSet × Option Snapshot :=
  let s' : WindowSet :=
    match e with
    | .WindowsChanged windows =>
      match s with
      | some (.WorkspacesOnly workspaces) => some (.Ready (Niri.new windows workspaces))
      | some (.WindowsOnly _) | none => some (.WindowsOnly windows)
      | some (.Ready st) => some (.Ready (st.replace_windows windows))
    | .WorkspacesChanged workspaces =>
      match s with
      | some (.WindowsOnly windows) => some (.Ready (Niri.new windows workspaces))
      | some (.WorkspacesOnly _) | none => some (.WorkspacesOnly workspaces)
      | some (.Ready st) => some (.Ready (st.replace_workspaces workspaces))
    | .WindowClosed id =>
      match s with
      | some (.Ready st) => some (.Ready (st.remove_window id))
      | _ => s
    | .WindowOpenedOrChanged window =>
      match s with
      | some (.Ready st) => some (.Ready (st.upsert_window window))
      | _ => s
    | .WindowFocusChanged id =>
      match s with
      | some (.Ready st) => some (.Ready (st.set_focus id))
      | _ => s
    | .WindowLayoutsChanged changes =>
      match s with
      | some (.Ready st) =>
        some (.Ready (changes.foldl (fun n c => n.update_window_layout c.1 c.2) st))
      | _ => s
    | .WorkspaceActivated id focused =>
      match s with
      | some (.Ready st) =>
        some (.Ready { st with
          workspaces := amMapVals st.workspaces
            (fun ws => { ws with is_focused := focused && id == ws.id }) })
      | _ => s
    | .other => s
  (s', match s' with
       | some (.Ready st) => some st.snapshot
       | _ => none)

/-- Folds a list of events through the state machine, keeping the state. -/
def WindowSet.runEvents (s : WindowSet) (events : List Event) : WindowSet :=
  events.foldl (fun s e => (s.with_event e).1) s

/-- True when the state has absorbed at least one full window list. -/
def WindowSet.seenWindows : WindowSet → Bool
  | some (.WindowsOnly _) => true
  | some (.Ready _) => true
  | _ => false

/-- True when the state has absorbed at least one full workspace list. -/
def WindowSet.seenWorkspaces : WindowSet → Bool
  | some (.WorkspacesOnly _) => true
  | some (.Ready _) => true
  | _ => false

theorem isReady_eq_seen (s : WindowSet) :
    s.isReady = (s.seenWindows && s.seenWorkspaces) := by
  rcases s with _ | (w | w | w) <;> rfl

theorem with_event_snd_isSome (s : WindowSet) (e : Event) :
    ((s.with_event e).2).isSome = ((s.with_event e).1).isReady := by
  rcases s with _ | (w | w | w) <;> cases e <;> rfl

theorem with_event_seenWindows (s : WindowSet) (e : Event) :
    ((s.with_event e).1).seenWindows = (s.seenWindows || e.isWindowsChanged) := by
  rcases s with _ | (w | w | w) <;> cases e <;> rfl

theorem with_event_seenWorkspaces (s : WindowSet) (e : Event) :
    ((s.with_event e).1).seenWorkspaces = (s.seenWorkspaces || e.isWorkspacesChanged) := by
  rcases s with _ | (w | w | w) <;> cases e <;> rfl

theorem runEvents_seenWindows (events : List Event) (s : WindowSet) :
    (s.runEvents events).seenWindows
      = (s.seenWindows || events.any Event.isWindowsChanged) := by
  induction events generalizing s with
  | nil => simp [WindowSet.runEvents]
  | cons e rest ih =>
    show ((s.with_event e).1.runEvents rest).seenWindows = _
    rw [ih, with_event_seenWindows, List.any_cons, Bool.or_assoc]

theorem runEvents_seenWorkspaces (events : List Event) (s : WindowSet) :
    (s.runEvents events).seenWorkspaces
      = (s.seenWorkspaces || events.any Event.isWorkspacesChanged) := by
  induction events generalizing s with
  | nil => simp [WindowSet.runEvents]
  | cons e rest ih =>
    show ((s.with_event e).1.runEvents rest).seenWorkspaces = _
    rw [ih, with_event_seenWorkspaces, List.any_cons, Bool.or_assoc]

theorem runEvents_append (s : WindowSet) (xs ys : List Event) :
    s.runEvents (xs ++ ys) = (s.runEvents xs).runEvents ys :=
  List.foldl_append ..

/-- C1: For every sequence of compositor events, `WindowSet::with_event`
returns a snapshot (`Some`) for an event if and only if both a full window
list and a full workspace list have been observed by the end of that event
(in either relative order); equivalently, it returns `None` exactly while the
machine is not `Ready`.  This covers in particular every sequence containing
one full-window-list and one full-workspace-list event. -/
theorem with_event_snapshot_iff_both_lists (pre : List Event) (e : Event) :
    (((WindowSet.new.runEvents pre).with_event e).2.isSome
        = ((pre ++ [e]).any Event.isWindowsChanged
            && (pre ++ [e]).any Event.isWorkspacesChanged))
    ∧ (((WindowSet.new.runEvents pre).with_event e).2.isSome
        = (WindowSet.new.runEvents (pre ++ [e])).isReady) := by
  have hrun : WindowSet.new.runEvents (pre ++ [e])
      = ((WindowSet.new.runEvents pre).with_event e).1 := by
    rw [runEvents_append]; rfl
  constructor
  · rw [with_event_snd_isSome, ← hrun, isReady_eq_seen,
      runEvents_seenWindows, runEvents_seenWorkspaces]
    rfl
  · rw [with_event_snd_isSome, hrun]

theorem amValues_amMapVals {α : Type} (m : List (Nat × α)) (f : α → α) :
    amValues (amMapVals m f) = (amValues m).map f := by
  simp [amValues, amMapVals]

/-- C2 (amended): For every `Ready` state, the derived snapshot contains
exactly those windows whose workspace id is set and refers to a workspace
present in the workspace map, and each snapshot window carries that
workspace's (possibly absent) output name; workspaces are copied verbatim.
The original claim's stronger "non-empty output attribution" clause fails
when a workspace itself has no output (see the counterexample). -/
theorem snapshot_characterization (st : Niri) :
    st.snapshot.workspaces = amValues st.workspaces
    ∧ ∀ sw : SnapshotWindow,
        sw ∈ st.snapshot.windows
          ↔ ∃ w ∈ amValues st.windows, ∃ wsId,
              w.workspace_id = some wsId
              ∧ ∃ ws, amGet st.workspaces wsId = some ws
                ∧ sw = { window := w, output := ws.output } := by
  constructor
  · rfl
  · intro sw
    simp only [Niri.snapshot, List.mem_filterMap, Option.bind_eq_some,
      Option.map_eq_some']
    constructor
    · rintro ⟨w, hw, wsId, hid, ws, hget, rfl⟩
      exact ⟨w, hw, wsId, hid, ws, hget, rfl⟩
    · rintro ⟨w, hw, wsId, hid, ws, hget, rfl⟩
      exact ⟨w, hw, wsId, hid, ws, hget, rfl⟩

/-- A workspace with no output name, as the compositor may report. -/
def wsNoOutput : Workspace := { id := 1, idx := 0, output := none, is_focused := true }

/-- A window on workspace 1. -/
def winOnWs1 : NiriWindow :=
  { id := 10, title := none, app_id := none, pid := some 500,
    workspace_id := some 1, is_focused := false, layout := ⟨none⟩ }

/-- C2 (counterexample): after a full workspace list and a full window list,
the machine is `Ready` and emits a snapshot, the single snapshot window's
workspace id is set and known, yet its output attribution is empty because
the workspace itself has no output name.  This refutes "every window in the
snapshot has a non-empty output attribution". -/
theorem snapshot_output_can_be_empty :
    ((WindowSet.new.runEvents [Event.WorkspacesChanged [wsNoOutput]]).with_event
        (Event.WindowsChanged [winOnWs1])).2
      = some (Snapshot.mk [SnapshotWindow.mk winOnWs1 none] [wsNoOutput])
    ∧ winOnWs1.workspace_id = some 1
    ∧ amGet [(1, wsNoOutput)] 1 = some wsNoOutput
    ∧ ([SnapshotWindow.mk winOnWs1 none].all
        (fun sw => sw.output.isSome)) = false := by
  refine ⟨?_, rfl, rfl, rfl⟩
  rfl

/-- C7: For every `Ready` state whose windows carry pairwise-distinct ids and
every window-focus-changed(optional id) event, after the event a window has
`focus = true` exactly when its id matches the given id — so at most one
window is focused, and none when the id is absent or matches no window. -/
theorem set_focus_exclusive (st : Niri) (idOpt : Option Nat)
    (hnodup : ((amValues st.windows).map NiriWindow.id).Nodup) :
    (WindowSet.with_event (some (Inner.Ready st)) (Event.WindowFocusChanged idOpt)
        = (some (Inner.Ready (st.set_focus idOpt)), some (st.set_focus idOpt).snapshot))
    ∧ (∀ w ∈ amValues (st.set_focus idOpt).windows,
        w.is_focused = true ↔ idOpt = some w.id)
    ∧ ((amValues (st.set_focus idOpt).windows).countP (fun w => w.is_focused) ≤ 1)
    ∧ (idOpt = none →
        ∀ w ∈ amValues (st.set_focus idOpt).windows, w.is_focused = false) := by
  refine ⟨rfl, ?_, ?_, ?_⟩
  · intro w hw
    rw [Niri.set_focus] at hw
    simp only [amValues_amMapVals, List.mem_map] at hw
    obtain ⟨w0, _, rfl⟩ := hw
    show (some w0.id == idOpt) = true ↔ idOpt = some w0.id
    simp only [beq_iff_eq]
    exact eq_comm
  · rw [Niri.set_focus]
    simp only [amValues_amMapVals, List.countP_map]
    rcases idOpt with _ | target
    · have hzero : (amValues st.windows).countP ((fun w => w.is_focused) ∘
          (fun w => { w with is_focused := some w.id == (none : Option Nat) })) = 0 := by
        rw [List.countP_eq_zero]
        intro y _
        simp [Function.comp]
      rw [hzero]
      exact Nat.zero_le 1
    · have hcount : ∀ (l : List NiriWindow), (l.map NiriWindow.id).Nodup →
          l.countP ((fun w => w.is_focused) ∘
            (fun w => { w with is_focused := some w.id == some target })) ≤ 1 := by
        intro l
        induction l with
        | nil => intro _; simp
        | cons x xs ih =>
          intro hnd
          rw [List.map_cons, List.nodup_cons] at hnd
          rw [List.countP_cons]
          by_cases hx : x.id = target
          · have hxs : xs.countP ((fun w => w.is_focused) ∘
                (fun w => { w with is_focused := some w.id == some target })) = 0 := by
              rw [List.countP_eq_zero]
              intro y hy
              have hyx : y.id ≠ target := by
                intro hcontra
                refine hnd.1 ?_
                have hymem : y.id ∈ List.map NiriWindow.id xs :=
                  List.mem_map_of_mem NiriWindow.id hy
                have hxy : x.id = y.id := by rw [hx, hcontra]
                rw [hxy]
                exact hymem
              simp [Function.comp, hyx]
            rw [hxs]
            have : (if ((fun w => w.is_focused) ∘
                (fun w => { w with is_focused := some w.id == some target })) x = true
                then 1 else 0) ≤ 1 := by
              split <;> simp
            omega
          · have hfx : ((fun w => w.is_focused) ∘
                (fun w => { w with is_focused := some w.id == some target })) x = false := by
              simp [Function.comp, hx]
            rw [hfx]
            simpa using ih hnd.2
      exact hcount (amValues st.windows) hnodup
  · rintro rfl w hw
    rw [Niri.set_focus] at hw
    simp only [amValues_amMapVals, List.mem_map] at hw
    obtain ⟨w0, _, rfl⟩ := hw
    rfl

/-- A second window, on workspace 1, initially focused. -/
def winOnWs1Focused : NiriWindow :=
  { id := 11, title := some "t", app_id := some "org.example.Foo", pid := some 777,
    workspace_id := some 1, is_focused := true, layout := ⟨none⟩ }

/-- A concrete `Ready` state used by witnesses. -/
def niriTwoWindows : Niri :=
  Niri.new [winOnWs1, winOnWs1Focused] [wsNoOutput]

theorem set_focus_exclusive_witness :
    ((amValues niriTwoWindows.windows).map NiriWindow.id).Nodup
    ∧ ((WindowSet.with_event (some (Inner.Ready niriTwoWindows))
          (Event.WindowFocusChanged (some 10))
        = (some (Inner.Ready (niriTwoWindows.set_focus (some 10))),
           some (niriTwoWindows.set_focus (some 10)).snapshot))
      ∧ (∀ w ∈ amValues (niriTwoWindows.set_focus (some 10)).windows,
          w.is_focused = true ↔ (some 10 : Option Nat) = some w.id)
      ∧ ((amValues (niriTwoWindows.set_focus (some 10)).windows).countP
          (fun w => w.is_focused) ≤ 1)
      ∧ ((some 10 : Option Nat) = none →
          ∀ w ∈ amValues (niriTwoWindows.set_focus (some 10)).windows,
            w.is_focused = false)) :=
  ⟨by decide, set_focus_exclusive niriTwoWindows (some 10) (by decide)⟩

/-! ## String helpers

Rust's `str::split(char)`, modelled structurally over the character list so
that it evaluates inside the kernel (`String.splitOn` does not): adjacent
separators yield empty fields, and the empty string yields one empty field,
exactly as in Rust. -/

def splitOnChar (sep : Char) : List Char → List (List Char)
  | [] => [[]]
  | c :: rest =>
    let r := splitOnChar sep rest
    if c = sep then [] :: r
    else
      match r with
      | [] => [[c]]
      | f :: fs => (c :: f) :: fs

/-- Rust `str::split(sep)` collected into a list of fields. -/
def rustSplit (sep : Char) (s : String) : List String :=
  (splitOnChar sep s.toList).map (fun cs => String.mk cs)

/-- Rust `str::to_lowercase`, restricted to the ASCII range the identifiers
under comparison use. -/
def rustToLower (s : String) : String := String.mk (s.toList.map Char.toLower)

/-! ## Process ancestry (`src/process.rs`) -/

/-- The outcome of reading `/proc/{pid}/stat` for a process: opening the file
may fail, reading it may fail, or the record's text is returned.  This
abstracts the GIO open/read pipeline in `Process::new`. -/
inductive StatRead where
  | openFail
  | readFail
  | content (s : String)
deriving Repr, DecidableEq

/-- `enum Error` in `src/process.rs`, with the glib/io causes dropped. -/
inductive ProcessError where
  | InsufficientFields (pid : Int)
  | ParentMalformedNumber (parent : String) (pid : Int)
  | Open (pid : Int)
  | Read (pid : Int)
deriving Repr, DecidableEq

/-- Rust `str::parse::<i64>`: an optional single `+`/`-` sign followed by one
or more ASCII digits, rejecting anything else and values outside the `i64`
range. -/
def parseI64 (s : String) : Option Int :=
  let cs := s.toList
  let core :=
    match cs with
    | c :: rest => if c = '-' || c = '+' then rest else cs
    | [] => cs
  let negative : Bool :=
    match cs with
    | c :: _ => c == '-'
    | [] => false
  if core.isEmpty || !(core.all Char.isDigit) then none
  else
    let mag : Int := ((core.foldl (fun a c => a * 10 + (c.toNat - 48)) 0 : Nat) : Int)
    let v : Int := if negative then -mag else mag
    if -(2 ^ 63) ≤ v ∧ v ≤ 2 ^ 63 - 1 then some v else none

/-- `struct Process` in `src/process.rs`. -/
structure Process where
  ppid : Option Int
deriving Repr, DecidableEq

/-- `Process::new`, with the `/proc/{pid}/stat` read abstracted as a
`readStat` oracle: parse the fourth space-delimited field as the parent pid,
normalising a parent of `0` to `none`. -/
def Process.new (readStat : Int → StatRead) (pid : Int) : Except ProcessError Process :=
  match readStat pid with
  | .openFail => .error (.Open pid)
  | .readFail => .error (.Read pid)
  | .content buffer =>
    match (rustSplit ' ' buffer).get? 3 with
    | none => .error (.InsufficientFields pid)
    | some f =>
      match parseI64 f with
      | none => .error (.ParentMalformedNumber f pid)
      | some ppid => .ok { ppid := if ppid = 0 then none else some ppid }

/-- C6: `Process::new` fails with an open (resp. read) error when the record
cannot be opened (resp. read), with a malformed-record error when the record
has fewer than four space-delimited fields, and with an invalid-number error
when the fourth field does not parse as an `i64`; on success a parsed parent
id of exactly 0 is returned as "no parent" and any other value as that
parent id. -/
theorem process_new_cases (readStat : Int → StatRead) (pid : Int) :
    (readStat pid = StatRead.openFail →
      Process.new readStat pid = .error (.Open pid))
    ∧ (readStat pid = StatRead.readFail →
      Process.new readStat pid = .error (.Read pid))
    ∧ (∀ s, readStat pid = StatRead.content s →
        ((rustSplit ' ' s).length < 4 →
          Process.new readStat pid = .error (.InsufficientFields pid))
        ∧ (∀ f, (rustSplit ' ' s).get? 3 = some f →
            (parseI64 f = none →
              Process.new readStat pid = .error (.ParentMalformedNumber f pid))
            ∧ (parseI64 f = some 0 → Process.new readStat pid = .ok ⟨none⟩)
            ∧ (∀ v, parseI64 f = some v → v ≠ 0 →
                Process.new readStat pid = .ok ⟨some v⟩))) := by
  refine ⟨?_, ?_, ?_⟩
  · intro h; simp only [Process.new, h]
  · intro h; simp only [Process.new, h]
  · intro s hs
    constructor
    · intro hlen
      have hget : (rustSplit ' ' s).get? 3 = none :=
        List.get?_eq_none.mpr (by omega)
      simp only [Process.new, hs, hget]
    · intro f hf
      refine ⟨?_, ?_, ?_⟩
      · intro hp; simp only [Process.new, hs, hf, hp]
      · intro hp
        simp only [Process.new, hs, hf, hp]
        rfl
      · intro v hp hv
        simp only [Process.new, hs, hf, hp]
        simp [hv]

/-- A concrete `/proc` oracle exercising every branch of `Process::new`. -/
def statOracle : Int → StatRead := fun pid =>
  if pid = 500 then .content "500 (app) S 0 0 0"
  else if pid = 999 then .content "999 (x) S 888 y"
  else if pid = 7 then .content "7 (y) S"
  else if pid = 8 then .content "8 (z) S x9"
  else if pid = 9 then .readFail
  else .openFail

theorem process_new_cases_witness :
    (statOracle 1 = StatRead.openFail
      ∧ Process.new statOracle 1 = .error (.Open 1))
    ∧ (statOracle 9 = StatRead.readFail
      ∧ Process.new statOracle 9 = .error (.Read 9))
    ∧ (statOracle 7 = StatRead.content "7 (y) S"
      ∧ (rustSplit ' ' "7 (y) S").length < 4
      ∧ Process.new statOracle 7 = .error (.InsufficientFields 7))
    ∧ (statOracle 8 = StatRead.content "8 (z) S x9"
      ∧ (rustSplit ' ' "8 (z) S x9").get? 3 = some "x9"
      ∧ parseI64 "x9" = none
      ∧ Process.new statOracle 8 = .error (.ParentMalformedNumber "x9" 8))
    ∧ (statOracle 500 = StatRead.content "500 (app) S 0 0 0"
      ∧ (rustSplit ' ' "500 (app) S 0 0 0").get? 3 = some "0"
      ∧ parseI64 "0" = some 0
      ∧ Process.new statOracle 500 = .ok ⟨none⟩)
    ∧ (statOracle 999 = StatRead.content "999 (x) S 888 y"
      ∧ (rustSplit ' ' "999 (x) S 888 y").get? 3 = some "888"
      ∧ parseI64 "888" = some 888 ∧ (888 : Int) ≠ 0
      ∧ Process.new statOracle 999 = .ok ⟨some 888⟩) :=
  ⟨⟨rfl, (process_new_cases statOracle 1).1 rfl⟩,
   ⟨rfl, (process_new_cases statOracle 9).2.1 rfl⟩,
   ⟨rfl, by decide,
    ((process_new_cases statOracle 7).2.2 "7 (y) S" rfl).1 (by decide)⟩,
   ⟨rfl, rfl, rfl,
    (((process_new_cases statOracle 8).2.2 "8 (z) S x9" rfl).2 "x9" rfl).1 rfl⟩,
   ⟨rfl, rfl, rfl,
    (((process_new_cases statOracle 500).2.2 "500 (app) S 0 0 0" rfl).2 "0" rfl).2.1 rfl⟩,
   ⟨rfl, rfl, rfl, by decide,
    (((process_new_cases statOracle 999).2.2 "999 (x) S 888 y" rfl).2 "888" rfl).2.2
      888 rfl (by decide)⟩⟩

/-! ## Notifications (`src/notify.rs`) -/

/-- `struct Hints` in `src/notify.rs`, restricted to the fields the
correlator reads. -/
structure Hints where
  category : Option String
  desktop_entry : Option String
  sender_pid : Option Int
  urgency : Option Nat
deriving Repr, DecidableEq

/-- `struct Notification` in `src/notify.rs`, restricted to the fields the
correlator reads. -/
structure Notification where
  app_name : Option String
  summary : String
  hints : Hints
deriving Repr, DecidableEq

/-- `struct EnrichedNotification`: a notification plus the
connection-resolved sender pid (a `u32`, when the connection cache knew
one). -/
structure EnrichedNotification where
  notification : Notification
  pid : Option Nat
deriving Repr, DecidableEq

/-- `EnrichedNotification::pid()`: the connection-resolved pid (widened to
`i64`) when present, else the notification's own `sender-pid` hint. -/
def EnrichedNotification.pidValue (e : EnrichedNotification) : Option Int :=
  match e.pid with
  | some pid => some (Int.ofNat pid)
  | none => e.notification.hints.sender_pid

/-- C10: the `pid()` accessor returns the connection-resolved sender pid when
one is present, otherwise falls back to the notification's own sender-pid
hint, and returns `none` exactly when both are absent. -/
theorem enriched_pid_precedence (e : EnrichedNotification) :
    (∀ p, e.pid = some p → e.pidValue = some (Int.ofNat p))
    ∧ (e.pid = none → e.pidValue = e.notification.hints.sender_pid)
    ∧ (e.pidValue = none
        ↔ (e.pid = none ∧ e.notification.hints.sender_pid = none)) := by
  refine ⟨?_, ?_, ?_⟩
  · intro p hp
    simp [EnrichedNotification.pidValue, hp]
  · intro h
    simp [EnrichedNotification.pidValue, h]
  · cases he : e.pid with
    | none => simp [EnrichedNotification.pidValue, he]
    | some p => simp [EnrichedNotification.pidValue, he]

/-- A notification with no hints of interest. -/
def bareNotification : Notification :=
  { app_name := some "app", summary := "s",
    hints := { category := none, desktop_entry := none, sender_pid := none,
               urgency := none } }

/-- A notification carrying only a `sender-pid` hint. -/
def hintedNotification : Notification :=
  { bareNotification with
    hints := { bareNotification.hints with sender_pid := some 7 } }

theorem enriched_pid_precedence_witness :
    (EnrichedNotification.pidValue ⟨hintedNotification, some 42⟩ = some (Int.ofNat 42))
    ∧ (EnrichedNotification.pidValue ⟨hintedNotification, none⟩ = some 7)
    ∧ (EnrichedNotification.pidValue ⟨bareNotification, none⟩ = none) :=
  ⟨(enriched_pid_precedence ⟨hintedNotification, some 42⟩).1 42 rfl,
   (enriched_pid_precedence ⟨hintedNotification, none⟩).2.1 rfl,
   (enriched_pid_precedence ⟨bareNotification, none⟩).2.2.mpr ⟨rfl, rfl⟩⟩

/-! ## Connection→pid cache (`src/notify/cache.rs`)

The worker owns a `HashMap<String, Entry>` (modelled as an association list)
and serves three kinds of input: decoded bus messages, `Get` requests, and
the periodic cleanup tick.  The D-Bus introspection call
`get_connection_unix_process_id` is abstracted as a `resolve` oracle
(`none` = the call failed), and `UniqueName::try_from` as a `valid`
predicate.  Time is an abstract `Nat` instant `now`. -/

/-- `struct Entry` in `src/notify/cache.rs`. -/
structure Entry where
  pid : Option Nat
  expiry : Nat
deriving Repr, DecidableEq

def cacheLookup : List (String × Entry) → String → Option Entry
  | [], _ => none
  | (k', e) :: rest, k => if k' = k then some e else cacheLookup rest k

/-- `Cache::remove` (also `HashMap::insert`'s displacement of the old
binding): drop every binding for the key. -/
def cacheRemove : List (String × Entry) → String → List (String × Entry)
  | [], _ => []
  | (a, e) :: rest, k =>
    if a = k then cacheRemove rest k else (a, e) :: cacheRemove rest k

/-- `Cache::insert`: overwrite any binding for the connection with expiry
`now + ttl`. -/
def cacheInsert (m : List (String × Entry)) (ttl now : Nat) (k : String)
    (pid : Option Nat) : List (String × Entry) :=
  (k, { pid := pid, expiry := now + ttl }) :: cacheRemove m k

/-- The in-place expiry update done by `Cache::get` on a hit
(`entry.expiry = SystemTime::now() + self.expiry`). -/
def cacheRefresh : List (String × Entry) → Nat → String → List (String × Entry)
  | [], _, _ => []
  | (a, e) :: rest, newExpiry, k =>
    if a = k then (a, { e with expiry := newExpiry }) :: cacheRefresh rest newExpiry k
    else (a, e) :: cacheRefresh rest newExpiry k

/-- `Cache::get`: on a hit, refresh the entry's expiry to `now + ttl` and
return the cached pid option; on a miss leave the map alone. -/
def cacheGet (m : List (String × Entry)) (ttl now : Nat) (k : String) :
    List (String × Entry) × Option (Option Nat) :=
  match cacheLookup m k with
  | some e => (cacheRefresh m (now + ttl) k, some e.pid)
  | none => (m, none)

/-- `Cache::expire`: retain exactly the entries whose expiry is still in the
future. -/
def cacheExpire : List (String × Entry) → Nat → List (String × Entry)
  | [], _ => []
  | (a, e) :: rest, now =>
    if e.expiry > now then (a, e) :: cacheExpire rest now else cacheExpire rest now

/-- `handle_message` for `Message::Get`: a hit returns the cached value; a
miss introspects the peer (when its name is a valid unique name) and caches
and returns a successful resolution; otherwise no reply is ever sent (the
`oneshot` sender is dropped). -/
def handleGet (m : List (String × Entry)) (ttl now : Nat) (valid : String → Bool)
    (resolve : String → Option Nat) (connection : String) :
    List (String × Entry) × Option (Option Nat) :=
  match cacheGet m ttl now connection with
  | (m', some maybePid) => (m', some maybePid)
  | (_, none) =>
    if valid connection then
      match resolve connection with
      | some pid => (cacheInsert m ttl now connection (some pid), some (some pid))
      | none => (m, none)
    else (m, none)

/-- `handle_zbus_message` for a decoded `NameOwnerChanged` signal: a new
owner is eagerly resolved and cached (when resolution succeeds); otherwise a
disappeared old owner is evicted. -/
def handleNameOwnerChanged (m : List (String × Entry)) (ttl now : Nat)
    (resolve : String → Option Nat) (oldOwner newOwner : Option String) :
    List (String × Entry) :=
  match newOwner with
  | some n =>
    match resolve n with
    | some pid => cacheInsert m ttl now n (some pid)
    | none => m
  | none =>
    match oldOwner with
    | some o => cacheRemove m o
    | none => m

/-- One iteration of the worker loop in `src/notify/cache.rs`, by input
kind. -/
inductive WorkerInput where
  | nameOwnerChanged (oldOwner newOwner : Option String)
  | otherBusMessage
  | get (connection : String)
  | cleanupTick
deriving Repr, DecidableEq

def workerStep (ttl now : Nat) (valid : String → Bool) (resolve : String → Option Nat)
    (m : List (String × Entry)) :
    WorkerInput → List (String × Entry) × Option (Option Nat)
  | .nameOwnerChanged oldOwner newOwner =>
    (handleNameOwnerChanged m ttl now resolve oldOwner newOwner, none)
  | .otherBusMessage => (m, none)
  | .get connection => handleGet m ttl now valid resolve connection
  | .cleanupTick => (cacheExpire m now, none)

/-- `ConnectionCache::get` on the caller side: `rx.await.unwrap_or(None)` —
a dropped reply channel is observed as `None`. -/
def callerView (reply : Option (Option Nat)) : Option Nat := reply.getD none

theorem cacheLookup_remove (m : List (String × Entry)) (n k : String) :
    cacheLookup (cacheRemove m n) k
      = if n = k then none else cacheLookup m k := by
  induction m with
  | nil => simp [cacheRemove, cacheLookup]
  | cons p rest ih =>
    obtain ⟨a, e⟩ := p
    simp only [cacheRemove]
    by_cases han : a = n
    · subst han
      rw [if_pos rfl, ih]
      by_cases hak : a = k
      · subst hak; simp [cacheLookup]
      · simp [cacheLookup, hak]
    · rw [if_neg han]
      by_cases hak : a = k
      · subst hak
        have hna : ¬ n = a := fun h => han h.symm
        simp [cacheLookup, hna]
      · simp [cacheLookup, hak, ih]

theorem cacheLookup_insert (m : List (String × Entry)) (ttl now : Nat)
    (k' : String) (pid : Option Nat) (k : String) :
    cacheLookup (cacheInsert m ttl now k' pid) k
      = if k' = k then some { pid := pid, expiry := now + ttl }
        else cacheLookup m k := by
  by_cases h : k' = k
  · simp [cacheInsert, cacheLookup, h]
  · simp [cacheInsert, cacheLookup, h, cacheLookup_remove]

theorem cacheLookup_refresh (m : List (String × Entry)) (newExpiry : Nat)
    (k' k : String) :
    cacheLookup (cacheRefresh m newExpiry k') k
      = if k' = k
          then (cacheLookup m k).map (fun e => { e with expiry := newExpiry })
          else cacheLookup m k := by
  induction m with
  | nil => simp [cacheRefresh, cacheLookup]
  | cons p rest ih =>
    obtain ⟨a, e⟩ := p
    simp only [cacheRefresh]
    by_cases hak' : a = k'
    · subst hak'
      rw [if_pos rfl]
      by_cases hak : a = k
      · subst hak
        simp [cacheLookup]
      · simp [cacheLookup, hak, ih]
    · rw [if_neg hak']
      by_cases hak : a = k
      · subst hak
        have hk'a : ¬ k' = a := fun h => hak' h.symm
        simp [cacheLookup, hk'a]
      · simp [cacheLookup, hak, ih]

theorem cacheLookup_expire_of_kept (m : List (String × Entry)) (now : Nat)
    (k : String) (e : Entry) (h : cacheLookup m k = some e)
    (hlive : e.expiry > now) :
    cacheLookup (cacheExpire m now) k = some e := by
  induction m with
  | nil => cases h
  | cons p rest ih =>
    obtain ⟨a, e'⟩ := p
    simp only [cacheExpire]
    simp only [cacheLookup] at h
    by_cases hak : a = k
    · rw [if_pos hak] at h
      injection h with he
      subst he
      rw [if_pos hlive]
      simp [cacheLookup, hak]
    · rw [if_neg hak] at h
      by_cases hkeep : e'.expiry > now
      · rw [if_pos hkeep]
        simp only [cacheLookup]
        rw [if_neg hak]
        exact ih h
      · rw [if_neg hkeep]
        exact ih h

theorem cacheLookup_expire_none (m : List (String × Entry)) (now : Nat)
    (k : String) (e : Entry) (h : cacheLookup m k = some e)
    (hafter : cacheLookup (cacheExpire m now) k = none) : e.expiry ≤ now := by
  by_contra hlive
  rw [cacheLookup_expire_of_kept m now k e h (by omega)] at hafter
  cases hafter

/-- C5 (counterexample): a `Get` for a peer absent from the cache whose
introspection call fails to resolve a pid leaves the cache unchanged (nothing
is inserted) and sends no reply, so the caller observes `None`.  This refutes
"the result — even when the pid is unresolved — is inserted into the cache
and returned to the caller". -/
theorem get_miss_unresolved_not_cached :
    cacheLookup [] ":1.7" = none
    ∧ handleGet [] 60 0 (fun _ => true) (fun _ => none) ":1.7" = ([], none)
    ∧ cacheLookup (handleGet [] 60 0 (fun _ => true) (fun _ => none) ":1.7").1 ":1.7" = none
    ∧ callerView (handleGet [] 60 0 (fun _ => true) (fun _ => none) ":1.7").2 = none :=
  ⟨rfl, rfl, rfl, rfl⟩

/-- C5 (amended): on a `Get` hit the cached value (which may be "no pid
known") is returned with its expiry refreshed; on a miss the worker
introspects the peer (when its name is a valid unique name) and a successful
resolution is inserted into the cache and returned, while a failed resolution
(or an invalid peer name) caches nothing and sends no reply. -/
theorem handle_get_characterization (m : List (String × Entry)) (ttl now : Nat)
    (valid : String → Bool) (resolve : String → Option Nat) (k : String) :
    (∀ e, cacheLookup m k = some e →
      handleGet m ttl now valid resolve k = (cacheRefresh m (now + ttl) k, some e.pid))
    ∧ (cacheLookup m k = none →
        ((valid k = true →
          (∀ pid, resolve k = some pid →
            handleGet m ttl now valid resolve k
              = (cacheInsert m ttl now k (some pid), some (some pid))
            ∧ cacheLookup (cacheInsert m ttl now k (some pid)) k
              = some { pid := some pid, expiry := now + ttl })
          ∧ (resolve k = none →
              handleGet m ttl now valid resolve k = (m, none)))
        ∧ (valid k = false →
            handleGet m ttl now valid resolve k = (m, none)))) := by
  constructor
  · intro e he
    simp [handleGet, cacheGet, he]
  · intro hmiss
    constructor
    · intro hvalid
      constructor
      · intro pid hres
        constructor
        · simp [handleGet, cacheGet, hmiss, hvalid, hres]
        · rw [cacheLookup_insert]
          simp
      · intro hres
        simp [handleGet, cacheGet, hmiss, hvalid, hres]
    · intro hvalid
      simp [handleGet, cacheGet, hmiss, hvalid]

/-- A concrete cache state: one resolved entry for peer `c1`. -/
def cacheM0 : List (String × Entry) := [("c1", { pid := some 42, expiry := 10 })]

/-- A concrete introspection oracle knowing only peer `c2`. -/
def resOracle : String → Option Nat := fun c => if c = "c2" then some 7 else none

theorem handle_get_characterization_witness :
    (cacheLookup cacheM0 "c1" = some { pid := some 42, expiry := 10 }
      ∧ handleGet cacheM0 5 3 (fun _ => true) resOracle "c1"
          = (cacheRefresh cacheM0 8 "c1", some (some 42)))
    ∧ (cacheLookup cacheM0 "c2" = none
      ∧ (fun (_ : String) => true) "c2" = true
      ∧ resOracle "c2" = some 7
      ∧ (handleGet cacheM0 5 3 (fun _ => true) resOracle "c2"
            = (cacheInsert cacheM0 5 3 "c2" (some 7), some (some 7))
        ∧ cacheLookup (cacheInsert cacheM0 5 3 "c2" (some 7)) "c2"
            = some { pid := some 7, expiry := 8 })) :=
  ⟨⟨rfl, (handle_get_characterization cacheM0 5 3 (fun _ => true) resOracle "c1").1
      { pid := some 42, expiry := 10 } rfl⟩,
   rfl, rfl, rfl,
   (((handle_get_characterization cacheM0 5 3 (fun _ => true) resOracle "c2").2
      rfl).1 rfl).1 7 rfl⟩

/-- C8: at every worker step, a `Get` hit refreshes the entry's expiry to
`now + ttl`; an entry disappears from the cache only at a cleanup tick whose
`now` is at or past the entry's expiry, or on a `NameOwnerChanged` signal
reporting the peer's owner gone; and a signal reporting a new owner whose pid
resolves caches that pid eagerly. -/
theorem cache_worker_invariants (ttl now : Nat) (valid : String → Bool)
    (resolve : String → Option Nat) (m : List (String × Entry)) :
    (∀ k e, cacheLookup m k = some e →
      cacheLookup (workerStep ttl now valid resolve m (.get k)).1 k
        = some { pid := e.pid, expiry := now + ttl })
    ∧ (∀ (input : WorkerInput) (k : String) (e : Entry),
        cacheLookup m k = some e →
        cacheLookup (workerStep ttl now valid resolve m input).1 k = none →
        (input = WorkerInput.cleanupTick ∧ e.expiry ≤ now)
        ∨ input = WorkerInput.nameOwnerChanged (some k) none)
    ∧ (∀ (oldOwner : Option String) (n : String) (pid : Nat),
        resolve n = some pid →
        cacheLookup
            (workerStep ttl now valid resolve m
              (.nameOwnerChanged oldOwner (some n))).1 n
          = some { pid := some pid, expiry := now + ttl }) := by
  refine ⟨?_, ?_, ?_⟩
  · intro k e he
    simp only [workerStep, handleGet, cacheGet, he]
    rw [cacheLookup_refresh]
    simp [he]
  · intro input k e he hafter
    cases input with
    | nameOwnerChanged oldOwner newOwner =>
      cases newOwner with
      | some n =>
        cases hres : resolve n with
        | some pid =>
          simp only [workerStep, handleNameOwnerChanged, hres] at hafter
          rw [cacheLookup_insert] at hafter
          by_cases hnk : n = k
          · rw [if_pos hnk] at hafter
            cases hafter
          · rw [if_neg hnk] at hafter
            rw [he] at hafter
            cases hafter
        | none =>
          simp only [workerStep, handleNameOwnerChanged, hres] at hafter
          rw [he] at hafter
          cases hafter
      | none =>
        cases oldOwner with
        | some o =>
          simp only [workerStep, handleNameOwnerChanged] at hafter
          rw [cacheLookup_remove] at hafter
          by_cases hok : o = k
          · subst hok
            exact Or.inr rfl
          · rw [if_neg hok] at hafter
            rw [he] at hafter
            cases hafter
        | none =>
          simp only [workerStep, handleNameOwnerChanged] at hafter
          rw [he] at hafter
          cases hafter
    | otherBusMessage =>
      simp only [workerStep] at hafter
      rw [he] at hafter
      cases hafter
    | get conn =>
      cases hk' : cacheLookup m conn with
      | some e' =>
        simp only [workerStep, handleGet, cacheGet, hk'] at hafter
        rw [cacheLookup_refresh] at hafter
        by_cases hck : conn = k
        · rw [if_pos hck, he] at hafter
          cases hafter
        · rw [if_neg hck, he] at hafter
          cases hafter
      | none =>
        cases hv : valid conn with
        | true =>
          cases hres : resolve conn with
          | some pid =>
            simp [workerStep, handleGet, cacheGet, hk', hv, hres] at hafter
            rw [cacheLookup_insert] at hafter
            by_cases hck : conn = k
            · rw [if_pos hck] at hafter
              cases hafter
            · rw [if_neg hck] at hafter
              rw [he] at hafter
              cases hafter
          | none =>
            simp [workerStep, handleGet, cacheGet, hk', hv, hres] at hafter
            rw [he] at hafter
            cases hafter
        | false =>
          simp [workerStep, handleGet, cacheGet, hk', hv] at hafter
          rw [he] at hafter
          cases hafter
    | cleanupTick =>
      exact Or.inl ⟨rfl, cacheLookup_expire_none m now k e he hafter⟩
  · intro oldOwner n pid hres
    simp only [workerStep, handleNameOwnerChanged, hres]
    rw [cacheLookup_insert]
    simp

/-- A concrete cache state with a live entry (`c1`) and an expired one
(`c2`). -/
def cacheM1 : List (String × Entry) :=
  [("c1", { pid := some 42, expiry := 10 }), ("c2", { pid := none, expiry := 3 })]

/-- A concrete introspection oracle knowing only peer `c3`. -/
def resOracle2 : String → Option Nat := fun c => if c = "c3" then some 7 else none

theorem cache_worker_invariants_witness :
    (cacheLookup cacheM1 "c1" = some { pid := some 42, expiry := 10 }
      ∧ cacheLookup
          (workerStep 10 5 (fun _ => true) resOracle2 cacheM1 (.get "c1")).1 "c1"
        = some { pid := some 42, expiry := 15 })
    ∧ (cacheLookup cacheM1 "c2" = some { pid := none, expiry := 3 }
      ∧ cacheLookup
          (workerStep 10 5 (fun _ => true) resOracle2 cacheM1 .cleanupTick).1 "c2"
        = none
      ∧ ((WorkerInput.cleanupTick = WorkerInput.cleanupTick ∧ (3 : Nat) ≤ 5)
          ∨ WorkerInput.cleanupTick = WorkerInput.nameOwnerChanged (some "c2") none))
    ∧ (resOracle2 "c3" = some 7
      ∧ cacheLookup
          (workerStep 10 5 (fun _ => true) resOracle2 cacheM1
            (.nameOwnerChanged none (some "c3"))).1 "c3"
        = some { pid := some 7, expiry := 15 }) := by
  refine ⟨⟨rfl, ?_⟩, ⟨rfl, rfl, ?_⟩, rfl, ?_⟩
  · exact (cache_worker_invariants 10 5 (fun _ => true) resOracle2 cacheM1).1 "c1"
      { pid := some 42, expiry := 10 } rfl
  · exact (cache_worker_invariants 10 5 (fun _ => true) resOracle2 cacheM1).2.1
      WorkerInput.cleanupTick "c2" { pid := none, expiry := 3 } rfl rfl
  · exact (cache_worker_invariants 10 5 (fun _ => true) resOracle2 cacheM1).2.2
      none "c3" 7 rfl

/-! ## Configuration (`src/config.rs`, notification-relevant part) -/

/-- `struct Notifications` in `src/config.rs`. -/
structure Notifications where
  enabled : Bool
  ignore_desktop_entry : Bool
  map_app_ids : List (String × String)
deriving Repr, DecidableEq

/-- `struct Config` in `src/config.rs`, restricted to the notification
settings (the per-app CSS rules are out of scope). -/
structure Config where
  notifications : Option Notifications
deriving Repr, DecidableEq

def lookupStr : List (String × String) → String → Option String
  | [], _ => none
  | (k', v) :: rest, k => if k' = k then some v else lookupStr rest k

/-- `Config::notifications_app_map`. -/
def Config.notifications_app_map (c : Config) (app_id : String) : Option String :=
  c.notifications.bind (fun n => lookupStr n.map_app_ids app_id)

/-- `Config::notifications_should_use_desktop_entry`. -/
def Config.notifications_should_use_desktop_entry (c : Config) : Bool :=
  match c.notifications with
  | some n => !n.ignore_desktop_entry
  | none => true

/-! ## Notification correlation (`Instance::process_notification`, `src/lib.rs`)

The GTK side is abstracted: the per-workspace button maps become a
`hasButton` predicate on window ids, and `Button::set_urgent` calls are
collected as the returned list of window ids (in call order).  One
`Process::new(pid).await` becomes a query to an ancestry oracle, and the
unbounded `loop` is bounded by explicit fuel (the source relies on the
process tree being finite and acyclic). -/

/-- Result of one `Process::new(pid).await`: an error, or the parsed parent
pid (`none` = no parent). -/
inductive LookupResult where
  | err
  | ok (ppid : Option Int)
deriving Repr, DecidableEq

def pidMapRemove : List (Int × SnapshotWindow) → Int → List (Int × SnapshotWindow)
  | [], _ => []
  | (q, v) :: rest, p =>
    if q = p then pidMapRemove rest p else (q, v) :: pidMapRemove rest p

def pidMapInsert (m : List (Int × SnapshotWindow)) (p : Int) (w : SnapshotWindow) :
    List (Int × SnapshotWindow) :=
  (p, w) :: pidMapRemove m p

/-- `PidWindowMap::new`: map each window's recorded pid (when present) to
the window; a later window with the same pid displaces an earlier one, as
`collect` into a `HashMap` does. -/
def PidWindowMap.new (ws : List SnapshotWindow) : List (Int × SnapshotWindow) :=
  ws.foldl
    (fun m w =>
      match w.window.pid with
      | some p => pidMapInsert m p w
      | none => m)
    []

/-- `PidWindowMap::get`. -/
def PidWindowMap.get : List (Int × SnapshotWindow) → Int → Option SnapshotWindow
  | [], _ => none
  | (q, v) :: rest, p => if q = p then some v else PidWindowMap.get rest p

/-- One iteration's marking: if the current pid matches a window that is not
focused and whose button exists, that window's button is set urgent. -/
def markAt (pids : List (Int × SnapshotWindow)) (hasButton : Nat → Bool)
    (pid : Int) : List Nat :=
  match PidWindowMap.get pids pid with
  | some w =>
    if !w.window.is_focused && hasButton w.window.id then [w.window.id] else []
  | none => []

/-- The pids visited by the ancestry walk: the starting pid, then parents,
stopping at "no parent" or a lookup error; truncated by `fuel`. -/
def pidChain (anc : Int → LookupResult) : Nat → Int → List Int
  | 0, _ => []
  | fuel + 1, pid =>
    pid ::
      (match anc pid with
       | .ok (some ppid) => pidChain anc fuel ppid
       | _ => [])

/-- Whether the walk reaches its stopping condition (root or error) within
`fuel` iterations. -/
def chainDone (anc : Int → LookupResult) : Nat → Int → Bool
  | 0, _ => false
  | fuel + 1, pid =>
    match anc pid with
    | .ok (some ppid) => chainDone anc fuel ppid
    | _ => true

/-- The `loop` of the process-ancestry rule: mark at the current pid, then
follow the parent, stopping at "no parent" or on a lookup error. -/
def ancestryWalk (anc : Int → LookupResult) (pids : List (Int × SnapshotWindow))
    (hasButton : Nat → Bool) : Nat → Int → List Nat
  | 0, _ => []
  | fuel + 1, pid =>
    markAt pids hasButton pid ++
      (match anc pid with
       | .ok (some ppid) => ancestryWalk anc pids hasButton fuel ppid
       | _ => [])

/-- The source's exact-match test: `app_id == mapped`. -/
def isExactMatch (mapped : String) (w : SnapshotWindow) : Bool :=
  w.window.app_id == some mapped

/-- The source's fuzzy-match test, taken only when the app id is present and
differs from the mapped entry: a case-insensitive match of the whole id, or
— when the id contains a `.` — a case-insensitive match of the id's last
`.`-segment against the mapped entry's precomputed lowercased last
segment. -/
def isFuzzyMatch (mapped mappedLower mappedLastLower : String)
    (w : SnapshotWindow) : Bool :=
  match w.window.app_id with
  | none => false
  | some app_id =>
    if app_id = mapped then false
    else if rustToLower app_id = mappedLower then true
    else if app_id.toList.contains '.' then
      match (rustSplit '.' app_id).getLast? with
      | some last => rustToLower last == mappedLastLower
      | none => false
    else false

/-- The single pass over the window list in the desktop-entry fallback:
exact matches with a button are marked immediately (first component); fuzzy
candidates are collected (second component) when fuzzy matching is
enabled. -/
def fallbackScan (hasButton : Nat → Bool) (useFuzzy : Bool)
    (mapped mappedLower mappedLastLower : String) :
    List SnapshotWindow → List Nat × List Nat
  | [] => ([], [])
  | w :: rest =>
    let r := fallbackScan hasButton useFuzzy mapped mappedLower mappedLastLower rest
    if isExactMatch mapped w then
      (if hasButton w.window.id then w.window.id :: r.1 else r.1, r.2)
    else if useFuzzy && isFuzzyMatch mapped mappedLower mappedLastLower w then
      (r.1, w.window.id :: r.2)
    else r

/-- The post-pass application of fuzzy candidates: each candidate whose
button exists is marked. -/
def applyFuzzy (hasButton : Nat → Bool) : List Nat → List Nat
  | [] => []
  | id :: rest =>
    if hasButton id then id :: applyFuzzy hasButton rest
    else applyFuzzy hasButton rest

/-- The `mapped` binding of the fallback: the desktop entry remapped through
the configured app-id map, or used as-is. -/
def mappedEntry (cfg : Config) (de : String) : String :=
  (cfg.notifications_app_map de).getD de

/-- The desktop-entry fallback of `Instance::process_notification`: gated on
the configuration, requires a desktop-entry hint, remaps it through the
configured app-id map, then runs the single pass; fuzzy candidates are
applied only when no exact match was marked.  The configuration accessor
`notifications_use_fuzzy_matching` called by the source has no definition
under `src/`, so the enabled/disabled state of fuzzy matching is the opaque
boolean `useFuzzy`. -/
def desktopEntryFallback (cfg : Config) (useFuzzy : Bool) (hasButton : Nat → Bool)
    (n : EnrichedNotification) (windows : List SnapshotWindow) : List Nat :=
  if cfg.notifications_should_use_desktop_entry then
    match n.notification.hints.desktop_entry with
    | none => []
    | some de =>
      let mapped := mappedEntry cfg de
      let mappedLower := rustToLower mapped
      let mappedLastLower := rustToLower (((rustSplit '.' mapped).getLast?).getD "")
      let r := fallbackScan hasButton useFuzzy mapped mappedLower mappedLastLower windows
      r.1 ++ (if r.1.isEmpty then applyFuzzy hasButton r.2 else [])
  else []

/-- `Instance::process_notification`, returning the ids of the windows whose
buttons get `set_urgent` called, in call order.  Dropping a notification is
returning `[]`; the function is total, so no error can be raised. -/
def processNotification (cfg : Config) (useFuzzy : Bool) (hasButton : Nat → Bool)
    (anc : Int → LookupResult) (fuel : Nat)
    (lastSnapshot : Option Snapshot) (n : EnrichedNotification) : List Nat :=
  match lastSnapshot with
  | none => []
  | some toplevels =>
    let pidMarks :=
      match n.pidValue with
      | some pid0 =>
        ancestryWalk anc (PidWindowMap.new toplevels.windows) hasButton fuel pid0
      | none => []
    if pidMarks ≠ [] then pidMarks
    else desktopEntryFallback cfg useFuzzy hasButton n toplevels.windows

theorem mem_markAt (pids : List (Int × SnapshotWindow)) (hasButton : Nat → Bool)
    (pid : Int) (id : Nat) :
    id ∈ markAt pids hasButton pid
      ↔ ∃ w, PidWindowMap.get pids pid = some w
          ∧ w.window.id = id ∧ w.window.is_focused = false
          ∧ hasButton w.window.id = true := by
  cases hget : PidWindowMap.get pids pid with
  | none => simp [markAt, hget]
  | some w =>
    simp only [markAt, hget]
    by_cases hfoc : w.window.is_focused
    · simp [hfoc]
    · by_cases hbtn : hasButton w.window.id
      · simp only [Bool.not_eq_true] at hfoc
        rw [if_pos (by rw [hfoc, hbtn]; rfl)]
        constructor
        · intro hid
          rw [List.mem_singleton] at hid
          exact ⟨w, rfl, hid.symm, hfoc, hbtn⟩
        · rintro ⟨w', hw', hid, _, _⟩
          injection hw' with hw'
          subst hw'
          rw [List.mem_singleton]
          exact hid.symm
      · simp [hfoc, hbtn]

theorem mem_ancestryWalk (anc : Int → LookupResult)
    (pids : List (Int × SnapshotWindow)) (hasButton : Nat → Bool)
    (fuel : Nat) (pid : Int) (id : Nat) :
    id ∈ ancestryWalk anc pids hasButton fuel pid
      ↔ ∃ p ∈ pidChain anc fuel pid, id ∈ markAt pids hasButton p := by
  induction fuel generalizing pid with
  | zero => simp [ancestryWalk, pidChain]
  | succ f ih =>
    cases hres : anc pid with
    | err => simp [ancestryWalk, pidChain, hres]
    | ok ppid =>
      cases ppid with
      | none => simp [ancestryWalk, pidChain, hres]
      | some q => simp [ancestryWalk, pidChain, hres, ih]

theorem pidChain_head (anc : Int → LookupResult) (fuel : Nat) (pid : Int)
    (h : chainDone anc fuel pid = true) :
    (pidChain anc fuel pid).head? = some pid := by
  cases fuel with
  | zero => simp [chainDone] at h
  | succ f => rfl

theorem pidChain_chain' (anc : Int → LookupResult) (fuel : Nat) (pid : Int) :
    List.Chain' (fun a b => anc a = LookupResult.ok (some b))
      (pidChain anc fuel pid) := by
  induction fuel generalizing pid with
  | zero => simp [pidChain]
  | succ f ih =>
    cases hres : anc pid with
    | err => simp [pidChain, hres]
    | ok ppid =>
      cases ppid with
      | none => simp [pidChain, hres]
      | some q =>
        simp only [pidChain, hres]
        rw [List.chain'_cons']
        refine ⟨?_, ih q⟩
        intro y hy
        cases f with
        | zero => simp [pidChain] at hy
        | succ f' =>
          simp only [pidChain, Option.mem_def, Option.some.injEq,
            List.head?_cons] at hy
          subst hy
          exact hres

theorem pidChain_last_stop (anc : Int → LookupResult) (fuel : Nat) (pid : Int)
    (h : chainDone anc fuel pid = true) :
    ∀ p, (pidChain anc fuel pid).getLast? = some p →
      anc p = LookupResult.err ∨ anc p = LookupResult.ok none := by
  induction fuel generalizing pid with
  | zero => simp [chainDone] at h
  | succ f ih =>
    intro p hp
    cases hres : anc pid with
    | err =>
      simp [pidChain, hres] at hp
      subst hp
      exact Or.inl hres
    | ok ppid =>
      cases ppid with
      | none =>
        simp [pidChain, hres] at hp
        subst hp
        exact Or.inr hres
      | some q =>
        simp only [chainDone, hres] at h
        cases f with
        | zero => simp [chainDone] at h
        | succ f' =>
          simp only [pidChain, hres] at hp
          rw [List.getLast?_cons_cons] at hp
          exact ih q h p hp

/-- C3: for every enriched notification carrying a resolved pid and every
current snapshot, the correlator walks the process ancestry starting at that
pid: the visited chain starts at the notification's pid, each step follows a
successfully-resolved parent, and the chain ends at a pid whose lookup
errored or reported no parent; a window is marked urgent exactly when its
recorded pid lies on the chain and it is not focused; and if at least one
window was marked, correlation returns those marks without attempting the
desktop-entry fallback.  (Buttons exist for all windows: the rendering layer
is abstracted as total.) -/
theorem ancestry_walk_marks (anc : Int → LookupResult) (snap : Snapshot)
    (n : EnrichedNotification) (pid0 : Int) (fuel : Nat) (cfg : Config)
    (useFuzzy : Bool)
    (hpid : n.pidValue = some pid0)
    (hdone : chainDone anc fuel pid0 = true) :
    ((pidChain anc fuel pid0).head? = some pid0)
    ∧ List.Chain' (fun a b => anc a = LookupResult.ok (some b))
        (pidChain anc fuel pid0)
    ∧ (∀ p, (pidChain anc fuel pid0).getLast? = some p →
        anc p = LookupResult.err ∨ anc p = LookupResult.ok none)
    ∧ (∀ id,
        id ∈ ancestryWalk anc (PidWindowMap.new snap.windows) (fun _ => true) fuel pid0
          ↔ ∃ p ∈ pidChain anc fuel pid0, ∃ w,
              PidWindowMap.get (PidWindowMap.new snap.windows) p = some w
              ∧ w.window.id = id ∧ w.window.is_focused = false)
    ∧ (ancestryWalk anc (PidWindowMap.new snap.windows) (fun _ => true) fuel pid0 ≠ [] →
        processNotification cfg useFuzzy (fun _ => true) anc fuel (some snap) n
          = ancestryWalk anc (PidWindowMap.new snap.windows) (fun _ => true) fuel pid0) := by
  refine ⟨pidChain_head anc fuel pid0 hdone, pidChain_chain' anc fuel pid0,
    pidChain_last_stop anc fuel pid0 hdone, ?_, ?_⟩
  · intro id
    rw [mem_ancestryWalk]
    constructor
    · rintro ⟨p, hp, hm⟩
      obtain ⟨w, hw, hid, hfoc, _⟩ := (mem_markAt _ _ _ _).mp hm
      exact ⟨p, hp, w, hw, hid, hfoc⟩
    · rintro ⟨p, hp, w, hw, hid, hfoc⟩
      exact ⟨p, hp, (mem_markAt _ _ _ _).mpr ⟨w, hw, hid, hfoc, rfl⟩⟩
  · intro hne
    simp only [processNotification, hpid]
    rw [if_pos hne]

/-- A concrete ancestry oracle: pid 500 is a root, everything else errors. -/
def ancC3 : Int → LookupResult := fun p => if p = 500 then .ok none else .err

/-- A snapshot holding the single unfocused window with pid 500. -/
def snapC3 : Snapshot := Snapshot.mk [SnapshotWindow.mk winOnWs1 none] [wsNoOutput]

/-- A notification whose connection resolved to pid 500. -/
def notifC3 : EnrichedNotification := ⟨bareNotification, some 500⟩

/-- A configuration with notifications enabled and no app-id remaps. -/
def cfgC3 : Config := ⟨some ⟨true, false, []⟩⟩

theorem ancestry_walk_marks_witness :
    notifC3.pidValue = some 500
    ∧ chainDone ancC3 2 500 = true
    ∧ ancestryWalk ancC3 (PidWindowMap.new snapC3.windows) (fun _ => true) 2 500 = [10]
    ∧ (((pidChain ancC3 2 500).head? = some 500)
      ∧ List.Chain' (fun a b => ancC3 a = LookupResult.ok (some b))
          (pidChain ancC3 2 500)
      ∧ (∀ p, (pidChain ancC3 2 500).getLast? = some p →
          ancC3 p = LookupResult.err ∨ ancC3 p = LookupResult.ok none)
      ∧ (∀ id,
          id ∈ ancestryWalk ancC3 (PidWindowMap.new snapC3.windows) (fun _ => true) 2 500
            ↔ ∃ p ∈ pidChain ancC3 2 500, ∃ w,
                PidWindowMap.get (PidWindowMap.new snapC3.windows) p = some w
                ∧ w.window.id = id ∧ w.window.is_focused = false)
      ∧ (ancestryWalk ancC3 (PidWindowMap.new snapC3.windows) (fun _ => true) 2 500 ≠ [] →
          processNotification cfgC3 true (fun _ => true) ancC3 2 (some snapC3) notifC3
            = ancestryWalk ancC3 (PidWindowMap.new snapC3.windows) (fun _ => true) 2 500)) :=
  ⟨rfl, rfl, rfl, ancestry_walk_marks ancC3 snapC3 notifC3 500 2 cfgC3 true rfl rfl⟩

theorem splitOnChar_ne_nil (sep : Char) (cs : List Char) :
    splitOnChar sep cs ≠ [] := by
  cases cs with
  | nil => simp [splitOnChar]
  | cons c rest =>
    simp only [splitOnChar]
    by_cases h : c = sep
    · simp [h]
    · rw [if_neg h]
      cases hr : splitOnChar sep rest with
      | nil => simp
      | cons f fs => simp

theorem rustSplit_ne_nil (sep : Char) (s : String) : rustSplit sep s ≠ [] := by
  intro h
  rw [rustSplit, List.map_eq_nil_iff] at h
  exact splitOnChar_ne_nil sep s.toList h

theorem isExactMatch_not_fuzzy (m ml mll : String) (w : SnapshotWindow)
    (h : isExactMatch m w = true) : isFuzzyMatch m ml mll w = false := by
  simp only [isExactMatch, beq_iff_eq] at h
  simp [isFuzzyMatch, h]

theorem isFuzzyMatch_iff (mapped mappedLower mappedLastLower : String)
    (w : SnapshotWindow) :
    isFuzzyMatch mapped mappedLower mappedLastLower w = true
      ↔ ∃ a, w.window.app_id = some a ∧ a ≠ mapped
          ∧ (rustToLower a = mappedLower
            ∨ (a.toList.contains '.' = true
              ∧ rustToLower ((rustSplit '.' a).getLast?.getD "")
                  = mappedLastLower)) := by
  cases hid : w.window.app_id with
  | none => simp [isFuzzyMatch, hid]
  | some a =>
    simp only [isFuzzyMatch, hid]
    by_cases heq : a = mapped
    · simp [heq]
    · rw [if_neg heq]
      by_cases hlow : rustToLower a = mappedLower
      · simp [hlow, heq]
      · rw [if_neg hlow]
        by_cases hdot : a.toList.contains '.' = true
        · rw [if_pos hdot]
          cases hl : (rustSplit '.' a).getLast? with
          | none =>
            have hsome : ((rustSplit '.' a).getLast?).isSome :=
              List.getLast?_isSome.mpr (rustSplit_ne_nil '.' a)
            rw [hl] at hsome
            simp at hsome
          | some last =>
            simp only [hl, beq_iff_eq]
            constructor
            · intro h
              exact ⟨a, rfl, heq, Or.inr ⟨hdot, by rw [hl]; exact h⟩⟩
            · rintro ⟨a', ha', hne, hcond⟩
              injection ha' with ha'
              subst ha'
              rcases hcond with hcond | ⟨_, hcond⟩
              · exact absurd hcond hlow
              · rw [hl] at hcond
                exact hcond
        · rw [if_neg hdot]
          constructor
          · intro h
            exact absurd h (by decide)
          · rintro ⟨a', ha', hne, hcond⟩
            injection ha' with ha'
            subst ha'
            rcases hcond with hcond | ⟨hc, _⟩
            · exact absurd hcond hlow
            · exact absurd hc hdot

theorem fallbackScan_eq (btn : Nat → Bool) (uf : Bool)
    (m ml mll : String) (ws : List SnapshotWindow) :
    fallbackScan btn uf m ml mll ws
      = ((ws.filter (fun w => isExactMatch m w && btn w.window.id)).map
            (fun w => w.window.id),
         (ws.filter (fun w => uf && isFuzzyMatch m ml mll w)).map
            (fun w => w.window.id)) := by
  induction ws with
  | nil => rfl
  | cons w rest ih =>
    cases hex : isExactMatch m w with
    | true =>
      have hfz : isFuzzyMatch m ml mll w = false :=
        isExactMatch_not_fuzzy m ml mll w hex
      cases hbtn : btn w.window.id with
      | true => simp [fallbackScan, ih, hex, hbtn, hfz, List.filter_cons]
      | false => simp [fallbackScan, ih, hex, hbtn, hfz, List.filter_cons]
    | false =>
      cases hfz : isFuzzyMatch m ml mll w with
      | true =>
        rcases Bool.eq_false_or_eq_true uf with huf | huf <;>
          rw [huf] at ih ⊢ <;>
          simp [fallbackScan, ih, hex, hfz, List.filter_cons]
      | false => simp [fallbackScan, ih, hex, hfz, List.filter_cons]

theorem mem_scan_fst (btn : Nat → Bool) (uf : Bool) (m ml mll : String)
    (ws : List SnapshotWindow) (id : Nat) :
    id ∈ (fallbackScan btn uf m ml mll ws).1
      ↔ ∃ w ∈ ws, isExactMatch m w = true ∧ btn w.window.id = true
          ∧ w.window.id = id := by
  rw [fallbackScan_eq]
  constructor
  · intro h
    obtain ⟨w, hw, hid⟩ := List.mem_map.mp h
    obtain ⟨hmem, hcond⟩ := List.mem_filter.mp hw
    rw [Bool.and_eq_true] at hcond
    exact ⟨w, hmem, hcond.1, hcond.2, hid⟩
  · rintro ⟨w, hmem, hex, hbtn, hid⟩
    exact List.mem_map.mpr
      ⟨w, List.mem_filter.mpr ⟨hmem, by rw [Bool.and_eq_true]; exact ⟨hex, hbtn⟩⟩, hid⟩

theorem mem_scan_snd (btn : Nat → Bool) (uf : Bool) (m ml mll : String)
    (ws : List SnapshotWindow) (id : Nat) :
    id ∈ (fallbackScan btn uf m ml mll ws).2
      ↔ uf = true
        ∧ ∃ w ∈ ws, isFuzzyMatch m ml mll w = true ∧ w.window.id = id := by
  rw [fallbackScan_eq]
  constructor
  · intro h
    obtain ⟨w, hw, hid⟩ := List.mem_map.mp h
    obtain ⟨hmem, hcond⟩ := List.mem_filter.mp hw
    rw [Bool.and_eq_true] at hcond
    exact ⟨hcond.1, w, hmem, hcond.2, hid⟩
  · rintro ⟨huf, w, hmem, hfz, hid⟩
    exact List.mem_map.mpr
      ⟨w, List.mem_filter.mpr ⟨hmem, by rw [Bool.and_eq_true]; exact ⟨huf, hfz⟩⟩, hid⟩

theorem scan_fst_nil_iff (btn : Nat → Bool) (uf : Bool) (m ml mll : String)
    (ws : List SnapshotWindow) :
    (fallbackScan btn uf m ml mll ws).1 = []
      ↔ ∀ w ∈ ws, ¬(isExactMatch m w = true ∧ btn w.window.id = true) := by
  constructor
  · intro h w hw hc
    have hmem : w.window.id ∈ (fallbackScan btn uf m ml mll ws).1 :=
      (mem_scan_fst btn uf m ml mll ws w.window.id).mpr ⟨w, hw, hc.1, hc.2, rfl⟩
    rw [h] at hmem
    cases hmem
  · intro h
    rw [List.eq_nil_iff_forall_not_mem]
    intro id hid
    obtain ⟨w, hw, hex, hbtn, _⟩ := (mem_scan_fst btn uf m ml mll ws id).mp hid
    exact h w hw ⟨hex, hbtn⟩

theorem mem_applyFuzzy (btn : Nat → Bool) (l : List Nat) (id : Nat) :
    id ∈ applyFuzzy btn l ↔ id ∈ l ∧ btn id = true := by
  induction l with
  | nil => simp [applyFuzzy]
  | cons x xs ih =>
    cases hb : btn x with
    | true =>
      simp only [applyFuzzy]
      rw [if_pos hb]
      simp only [List.mem_cons, ih]
      constructor
      · rintro (rfl | ⟨h1, h2⟩)
        · exact ⟨Or.inl rfl, hb⟩
        · exact ⟨Or.inr h1, h2⟩
      · rintro ⟨rfl | h1, h2⟩
        · exact Or.inl rfl
        · exact Or.inr ⟨h1, h2⟩
    | false =>
      simp only [applyFuzzy]
      rw [if_neg (by simp [hb])]
      simp only [List.mem_cons, ih]
      constructor
      · rintro ⟨h1, h2⟩
        exact ⟨Or.inr h1, h2⟩
      · rintro ⟨rfl | h1, h2⟩
        · exact absurd h2 (by simp [hb])
        · exact ⟨h1, h2⟩

/-- C4: in the desktop-entry fallback (configuration permitting, hint
present), a window is marked urgent exactly when its application identifier
equals the mapped entry, or — only when fuzzy matching is enabled and no
window matched exactly in the same pass — when its identifier equals the
mapped entry case-insensitively, or contains a `.` and its last `.`-segment
equals (case-insensitively) the mapped entry's last `.`-segment.  (Buttons
exist for all windows: the rendering layer is abstracted as total.) -/
theorem desktop_entry_fallback_matches (cfg : Config) (useFuzzy : Bool)
    (n : EnrichedNotification) (windows : List SnapshotWindow) (de : String)
    (hgate : cfg.notifications_should_use_desktop_entry = true)
    (hde : n.notification.hints.desktop_entry = some de) :
    ∀ id, id ∈ desktopEntryFallback cfg useFuzzy (fun _ => true) n windows
      ↔ (∃ w ∈ windows,
            w.window.app_id = some (mappedEntry cfg de) ∧ w.window.id = id)
        ∨ (useFuzzy = true
          ∧ (∀ w ∈ windows, w.window.app_id ≠ some (mappedEntry cfg de))
          ∧ ∃ w ∈ windows, w.window.id = id
              ∧ ∃ a, w.window.app_id = some a ∧ a ≠ mappedEntry cfg de
                ∧ (rustToLower a = rustToLower (mappedEntry cfg de)
                  ∨ (a.toList.contains '.' = true
                    ∧ rustToLower ((rustSplit '.' a).getLast?.getD "")
                        = rustToLower
                            ((rustSplit '.' (mappedEntry cfg de)).getLast?.getD "")))) := by
  intro id
  simp only [desktopEntryFallback, hgate, hde, if_true]
  by_cases hem :
      (fallbackScan (fun _ => true) useFuzzy (mappedEntry cfg de)
        (rustToLower (mappedEntry cfg de))
        (rustToLower ((rustSplit '.' (mappedEntry cfg de)).getLast?.getD ""))
        windows).1 = []
  · have hnoexact : ∀ w ∈ windows, w.window.app_id ≠ some (mappedEntry cfg de) := by
      intro w hw hcontra
      exact (scan_fst_nil_iff _ _ _ _ _ _).mp hem w hw
        ⟨by simp [isExactMatch, hcontra], rfl⟩
    rw [hem]
    simp only [List.nil_append, List.isEmpty_nil, if_true]
    rw [mem_applyFuzzy, mem_scan_snd]
    constructor
    · rintro ⟨⟨huf, w, hw, hfz, hid⟩, _⟩
      obtain ⟨a, ha, hne, hcond⟩ := (isFuzzyMatch_iff _ _ _ _).mp hfz
      exact Or.inr ⟨huf, hnoexact, w, hw, hid, a, ha, hne, hcond⟩
    · rintro (⟨w, hw, hex, _⟩ | ⟨huf, _, w, hw, hid, a, ha, hne, hcond⟩)
      · exact absurd hex (hnoexact w hw)
      · exact ⟨⟨huf, w, hw, (isFuzzyMatch_iff _ _ _ _).mpr ⟨a, ha, hne, hcond⟩, hid⟩, rfl⟩
  · have hempty :
        (fallbackScan (fun _ => true) useFuzzy (mappedEntry cfg de)
          (rustToLower (mappedEntry cfg de))
          (rustToLower ((rustSplit '.' (mappedEntry cfg de)).getLast?.getD ""))
          windows).1.isEmpty = false := by
      cases hS :
          (fallbackScan (fun _ => true) useFuzzy (mappedEntry cfg de)
            (rustToLower (mappedEntry cfg de))
            (rustToLower ((rustSplit '.' (mappedEntry cfg de)).getLast?.getD ""))
            windows).1 with
      | nil => exact absurd hS hem
      | cons y ys => rfl
    rw [hempty]
    simp only [Bool.false_eq_true, if_false, List.append_nil]
    rw [mem_scan_fst]
    constructor
    · rintro ⟨w, hw, hex, _, hid⟩
      simp only [isExactMatch, beq_iff_eq] at hex
      exact Or.inl ⟨w, hw, hex, hid⟩
    · rintro (⟨w, hw, hex, hid⟩ | ⟨_, hnone, _⟩)
      · exact ⟨w, hw, by simp [isExactMatch, hex], rfl, hid⟩
      · refine absurd ?_ hem
        refine (scan_fst_nil_iff _ _ _ _ _ _).mpr ?_
        rintro w hw ⟨hx, _⟩
        simp only [isExactMatch, beq_iff_eq] at hx
        exact hnone w hw hx

/-- A notification carrying only a desktop-entry hint of `"Foo"`. -/
def notifC4 : EnrichedNotification :=
  ⟨{ bareNotification with
     hints := { bareNotification.hints with desktop_entry := some "Foo" } }, none⟩

/-- A snapshot window whose app id is `"org.example.Foo"`. -/
def winC4 : SnapshotWindow := SnapshotWindow.mk winOnWs1Focused none

theorem desktop_entry_fallback_matches_witness :
    cfgC3.notifications_should_use_desktop_entry = true
    ∧ notifC4.notification.hints.desktop_entry = some "Foo"
    ∧ desktopEntryFallback cfgC3 true (fun _ => true) notifC4 [winC4] = [11]
    ∧ (∀ id, id ∈ desktopEntryFallback cfgC3 true (fun _ => true) notifC4 [winC4]
        ↔ (∃ w ∈ [winC4],
              w.window.app_id = some (mappedEntry cfgC3 "Foo") ∧ w.window.id = id)
          ∨ (true = true
            ∧ (∀ w ∈ [winC4], w.window.app_id ≠ some (mappedEntry cfgC3 "Foo"))
            ∧ ∃ w ∈ [winC4], w.window.id = id
                ∧ ∃ a, w.window.app_id = some a ∧ a ≠ mappedEntry cfgC3 "Foo"
                  ∧ (rustToLower a = rustToLower (mappedEntry cfgC3 "Foo")
                    ∨ (a.toList.contains '.' = true
                      ∧ rustToLower ((rustSplit '.' a).getLast?.getD "")
                          = rustToLower
                              ((rustSplit '.' (mappedEntry cfgC3 "Foo")).getLast?.getD ""))))) :=
  ⟨rfl, rfl, rfl,
   desktop_entry_fallback_matches cfgC3 true notifC4 [winC4] "Foo" rfl rfl⟩

/-- C9: the correlator drops a notification — returning the empty mark list,
and, being a total function, raising no error — when no snapshot has been
received yet; when the notification carries neither a resolvable pid nor a
desktop-entry hint; and in general whenever neither the ancestry rule nor
the desktop-entry rule marks any window. -/
theorem notification_dropped_without_data (cfg : Config) (useFuzzy : Bool)
    (hasButton : Nat → Bool) (anc : Int → LookupResult) (fuel : Nat)
    (n : EnrichedNotification) (snap : Snapshot) :
    (processNotification cfg useFuzzy hasButton anc fuel none n = [])
    ∧ (n.pidValue = none → n.notification.hints.desktop_entry = none →
        processNotification cfg useFuzzy hasButton anc fuel (some snap) n = [])
    ∧ (n.pidValue = none →
        desktopEntryFallback cfg useFuzzy hasButton n snap.windows = [] →
        processNotification cfg useFuzzy hasButton anc fuel (some snap) n = [])
    ∧ (∀ p, n.pidValue = some p →
        ancestryWalk anc (PidWindowMap.new snap.windows) hasButton fuel p = [] →
        desktopEntryFallback cfg useFuzzy hasButton n snap.windows = [] →
        processNotification cfg useFuzzy hasButton anc fuel (some snap) n = []) := by
  refine ⟨rfl, ?_, ?_, ?_⟩
  · intro hp hd
    simp [processNotification, hp, desktopEntryFallback, hd]
  · intro hp hf
    simp [processNotification, hp, hf]
  · intro p hp hwalk hf
    simp [processNotification, hp, hwalk, hf]

/-- A notification with neither a resolved pid nor any usable hint. -/
def notifC9 : EnrichedNotification := ⟨bareNotification, none⟩

theorem notification_dropped_without_data_witness :
    (processNotification cfgC3 true (fun _ => true) ancC3 2 none notifC9 = [])
    ∧ (notifC9.pidValue = none
      ∧ notifC9.notification.hints.desktop_entry = none
      ∧ processNotification cfgC3 true (fun _ => true) ancC3 2 (some snapC3) notifC9
          = []) :=
  ⟨(notification_dropped_without_data cfgC3 true (fun _ => true) ancC3 2 notifC9 snapC3).1,
   rfl, rfl,
   (notification_dropped_without_data cfgC3 true (fun _ => true) ancC3 2 notifC9
      snapC3).2.1 rfl rfl⟩

end NiriTaskbar
